import Mathlib

/-!
Formal model of the gradio-pdf-rag-poc repository (a PDF RAG proof of concept),
shallowly embedded in Lean 4. Python strings are modelled as `List Char`,
Python floats as `ℚ` (or `ℝ` where square roots are needed), Python `None`
defaults as `Option`, and raised exceptions as `Except`. External collaborators
(PyMuPDF, the OpenAI client, `uuid.uuid4`, the `re` regex engine) are modelled
as parameters of the functions that call them.
-/

/-! ## `src/core/config.py` — configuration constants -/

def DEFAULT_CHUNK_SIZE : ℕ := 2000

def DEFAULT_OVERLAP : ℕ := 350

def MIN_CHUNK_SIZE : ℕ := 50

def EMBEDDING_DIMENSIONS : ℕ := 1536

/-! ## `src/models/__init__.py` — `DocumentChunk`

`to_dict` returns exactly the fields below (the `metadata` dict is empty in
every construction site of the repository), so the dictionary form used as
search-result metadata is identified with the chunk itself. -/

structure DocumentChunk where
  text : List Char
  page_num : ℕ
  chunk_id : List Char
deriving DecidableEq, Repr

/-! ## Python string helpers

`pyStrip` models `str.strip()` (ASCII whitespace), `rfind` models
`str.rfind(c)` which returns the last index of `c` or `-1`. -/

def pyIsSpace (c : Char) : Bool :=
  c = ' ' || c = '\t' || c = '\n' || c = '\r' || c = '\x0b' || c = '\x0c'

def pyStrip (l : List Char) : List Char :=
  ((l.dropWhile pyIsSpace).reverse.dropWhile pyIsSpace).reverse

def rfindAux (l : List Char) (c : Char) (i : ℕ) (acc : Int) : Int :=
  match l with
  | [] => acc
  | x :: xs => rfindAux xs c (i + 1) (if x = c then (i : Int) else acc)

def rfind (l : List Char) (c : Char) : Int :=
  rfindAux l c 0 (-1)

/-! ## `src/services/document_processor.py` — `_split_text_into_chunks`

`boundaryAdjust` is the body of the `if end < len(text):` block: it computes
`break_point = max(chunk.rfind('.'), chunk.rfind('\n'))` — an index *relative
to the start of the window* — and compares it against the *absolute* position
`start + chunk_size // 2`; when the test fires it re-slices
`text[start : break_point + 1]` with the relative index used as an absolute
one. The embedding reproduces this faithfully. -/

def boundaryAdjust (text : List Char) (chunk_size start : ℕ)
    (chunk : List Char) (endPos : ℕ) : List Char × ℕ :=
  if endPos < text.length then
    let last_period := rfind chunk '.'
    let last_newline := rfind chunk '\n'
    let break_point := max last_period last_newline
    if (start : Int) + (chunk_size / 2 : ℕ) < break_point then
      ((text.drop start).take (break_point.toNat + 1 - start), break_point.toNat + 1)
    else
      (chunk, endPos)
  else
    (chunk, endPos)

/-- The `while start < len(text):` loop of `_split_text_into_chunks`, returning
each produced chunk paired with the window start it was produced from. The
loop is embedded with an explicit iteration bound `gas`; since
`start = max(start + 1, end - overlap)` strictly increases the start by at
least 1, `text.length - start` iterations always suffice
(`splitLoop_gas_irrelevant` below), so `splitAux` — the loop entered with that
bound — is the exact semantics of the Python loop. -/
def splitLoop (text : List Char) (chunk_size overlap : ℕ) :
    (gas : ℕ) → (start : ℕ) → List (ℕ × List Char)
  | 0, _ => []
  | gas + 1, start =>
    if start < text.length then
      if text.length ≤ (boundaryAdjust text chunk_size start
          ((text.drop start).take chunk_size) (start + chunk_size)).2 then
        [(start, (boundaryAdjust text chunk_size start
          ((text.drop start).take chunk_size) (start + chunk_size)).1)]
      else
        (start, (boundaryAdjust text chunk_size start
          ((text.drop start).take chunk_size) (start + chunk_size)).1) ::
          splitLoop text chunk_size overlap gas
            (max (start + 1) ((boundaryAdjust text chunk_size start
              ((text.drop start).take chunk_size) (start + chunk_size)).2 - overlap))
    else []

def splitAux (text : List Char) (chunk_size overlap start : ℕ) :
    List (ℕ × List Char) :=
  splitLoop text chunk_size overlap (text.length - start) start

def split_text_into_chunks (text : List Char) (chunk_size overlap : ℕ) :
    List (List Char) :=
  if text.length ≤ chunk_size then [text]
  else (splitAux text chunk_size overlap 0).map (·.2)

/-! ## `src/services/document_processor.py` — `create_chunks`

`chunk_size = chunk_size or Config.DEFAULT_CHUNK_SIZE` replaces both `None`
and `0` (falsy) by the default; `falsyOr` models this for an
`Option ℕ` argument. `uuid.uuid4()` is an external random source, modelled as
a stream `ids : ℕ → List Char`; the n-th surviving chunk across the whole run
receives `str(uuid.uuid4())[:8]`, i.e. `(ids n).take 8`. -/

def falsyOr (x : Option ℕ) (d : ℕ) : ℕ :=
  match x with
  | none => d
  | some n => if n = 0 then d else n

def create_chunks_aux (ids : ℕ → List Char) (chunk_size overlap : ℕ)
    (pages : List (List Char × ℕ)) (counter : ℕ) : List DocumentChunk :=
  match pages with
  | [] => []
  | (text, page_num) :: rest =>
    let kept := (split_text_into_chunks text chunk_size overlap).filter
      (fun t => MIN_CHUNK_SIZE ≤ (pyStrip t).length)
    let here := kept.enum.map (fun pr =>
      { text := pr.2, page_num := page_num,
        chunk_id := (ids (counter + pr.1)).take 8 : DocumentChunk })
    here ++ create_chunks_aux ids chunk_size overlap rest (counter + kept.length)

def create_chunks (ids : ℕ → List Char) (pages : List (List Char × ℕ))
    (chunk_size? overlap? : Option ℕ) : List DocumentChunk :=
  create_chunks_aux ids (falsyOr chunk_size? DEFAULT_CHUNK_SIZE)
    (falsyOr overlap? DEFAULT_OVERLAP) pages 0

/-! ## `src/services/vector_store.py` — `VectorStore`

The FAISS `IndexFlatIP` is modelled as the list of inserted row vectors; the
`ValueError` raised by `add_embeddings` is modelled with `Except`. -/

structure VectorStore where
  dimension : ℕ
  index : List (List ℚ)
  chunk_metadata : List DocumentChunk
deriving DecidableEq, Repr

def add_embeddings (vs : VectorStore) (embeddings : List (List ℚ))
    (chunks : List DocumentChunk) : Except String VectorStore :=
  if embeddings.length ≠ chunks.length then
    .error "Number of embeddings must match number of chunks"
  else
    .ok { vs with
          index := vs.index ++ embeddings,
          chunk_metadata := vs.chunk_metadata ++ chunks }

/-! ## `src/services/document_indexer.py` — `create_index`

External collaborators are passed in as parameters: the PDF text extraction
outcome (`extract_result`, PyMuPDF; an exception it raises is `.error`), the
uuid stream `ids`, the embedding call outcome (`embed_result`, OpenAI), the
normalization function over the embedding matrix, and the formatted elapsed
time. The surrounding `try/except` converts every raised exception into the
pair `({}, "Error processing PDF: ...")`; the empty dict `{}` is modelled as
`none`. -/

structure IndexState where
  vector_store : VectorStore
  chunks : List DocumentChunk
  total_pages : ℕ
  total_chunks : ℕ
deriving DecidableEq, Repr

def create_index (extract_result : Except String (List (List Char × ℕ)))
    (ids : ℕ → List Char)
    (embed_result : List (List Char) → Except String (List (List ℚ)))
    (normalize_fn : List (List ℚ) → List (List ℚ))
    (elapsed : String)
    (chunk_size? overlap? : Option ℕ) : Option IndexState × String :=
  let attempt : Except String (Option IndexState × String) :=
    match extract_result with
    | .error e => .error e
    | .ok pages =>
      if pages.isEmpty then .ok (none, "No text found in PDF")
      else
        let chunks := create_chunks ids pages chunk_size? overlap?
        if chunks.isEmpty then .ok (none, "No chunks created from PDF")
        else
          match embed_result (chunks.map (·.text)) with
          | .error e => .error e
          | .ok embeddings =>
            let normalized := normalize_fn embeddings
            let vs0 : VectorStore :=
              { dimension := EMBEDDING_DIMENSIONS, index := [], chunk_metadata := [] }
            match add_embeddings vs0 normalized chunks with
            | .error e => .error e
            | .ok vs =>
              .ok (some { vector_store := vs, chunks := chunks,
                          total_pages := pages.length,
                          total_chunks := chunks.length },
                   "Successfully indexed " ++ toString chunks.length ++
                   " chunks from " ++ toString pages.length ++ " pages in " ++
                   elapsed ++ "s")
  match attempt with
  | .ok r => r
  | .error e => (none, "Error processing PDF: " ++ e)

/-! ## `src/services/question_answering.py` — `_combine_search_results`

A search result is a metadata dictionary paired with a float score, modelled
as `DocumentChunk × ℚ`. The deduplication key is the f-string
`f"{page_num}_{chunk_id}"`. Python's `set` is modelled as a list with
membership tests; `list.sort(key=..., reverse=True)` is a stable descending
sort, modelled by `List.mergeSort` with the comparison `b.score ≤ a.score`. -/

def chunk_key (m : DocumentChunk) : List Char :=
  (toString m.page_num).toList ++ '_' :: m.chunk_id

/-- One pass of the duplicated loop in `_combine_search_results`: walk the
result list, appending each entry whose key has not been seen. -/
def dedupPass (results : List (DocumentChunk × ℚ))
    (combined : List (DocumentChunk × ℚ)) (seen : List (List Char)) :
    List (DocumentChunk × ℚ) × List (List Char) :=
  match results with
  | [] => (combined, seen)
  | (m, s) :: rest =>
    if chunk_key m ∈ seen then dedupPass rest combined seen
    else dedupPass rest (combined ++ [(m, s)]) (chunk_key m :: seen)

/-- The fused list before sorting: semantic results first, then keyword
results, with the shared seen-set threaded through both passes. -/
def combined_results (semantic keyword : List (DocumentChunk × ℚ)) :
    List (DocumentChunk × ℚ) :=
  (dedupPass keyword (dedupPass semantic [] []).1 (dedupPass semantic [] []).2).1

def combine_search_results (semantic keyword : List (DocumentChunk × ℚ))
    (max_results : ℕ) : List (DocumentChunk × ℚ) :=
  ((combined_results semantic keyword).mergeSort
    (fun a b => decide (b.2 ≤ a.2))).take (max max_results 8)

/-! ## `src/services/data_extraction.py` — `_select_relevant_chunks`

The compiled regex over `EXTRACTION_KEYWORDS` plus the schema keys is an
external `re` engine; it is modelled by two parameters: `matches c` for
`keyword_pattern.search(c["text"])` being non-`None`, and `cnt c` for
`len(keyword_pattern.findall(c["text"]))`. Every other step — take the first
five chunks, sort the matching chunks by match count descending (stable),
append the top ten not already selected, then for `total > 20` append the
chunks at indices `total // 4`, `total // 2`, `3 * total // 4`, `total - 5`
when in range and not already selected, and finally truncate to 20 — is
translated directly. -/

def select_relevant_chunks (kwMatch : DocumentChunk → Bool)
    (cnt : DocumentChunk → ℕ) (chunks : List DocumentChunk) :
    List DocumentChunk :=
  let selected := chunks.take 5
  let keyword_chunks :=
    (chunks.filter kwMatch).mergeSort (fun a b => decide (cnt b ≤ cnt a))
  let selected := (keyword_chunks.take 10).foldl
    (fun sel c => if c ∈ sel then sel else sel ++ [c]) selected
  let total := chunks.length
  let selected :=
    if 20 < total then
      [total / 4, total / 2, 3 * total / 4, total - 5].foldl
        (fun sel idx =>
          match chunks.get? idx with
          | some c => if c ∈ sel then sel else sel ++ [c]
          | none => sel) selected
    else selected
  selected.take 20

/-! ## `src/services/data_extraction.py` — `_parse_extraction_schema`

`json.loads` is part of the Python standard library (an external collaborator
of this repository); it is modelled by a recursive-descent parser for the
JSON grammar as CPython's decoder accepts it in its default strict mode:
`null`, `true`/`false`, numbers (optional sign, integer part without leading
zeros, optional fraction and exponent parts), strings with the
single-character escapes and `\uXXXX` escapes (surrogate pairs combined into
one scalar), arrays and objects, plus CPython's `Infinity`, `-Infinity` and
`NaN` constants; raw control characters inside strings are rejected, as in
strict mode. Objects are assembled with Python-dict semantics: a repeated
key keeps its first position and is overwritten with the later value.

Number values are carried as exact decimal data (sign, integer digits,
fraction digits, decimal exponent). The IEEE-754 effects of CPython's
`float` — rounding of literals beyond double precision, overflow to `inf`
and underflow to `0.0` — are the floating-point boundary of this model;
likewise lone surrogate code units, which Lean's `Char` cannot represent,
are mapped to U+FFFD. `str(x)` on a decoded value is modelled by
`pyStr` / `pyRepr`. -/

inductive JValue where
  | jnull : JValue
  | jbool : Bool → JValue
  | jnum : Int → JValue
  /-- A float token: sign, integer digits, fraction digits, exponent. -/
  | jfloat : Bool → List Char → List Char → Int → JValue
  /-- `Infinity` / `-Infinity`. -/
  | jinf : Bool → JValue
  | jnan : JValue
  | jstr : List Char → JValue
  | jarr : List JValue → JValue
  | jobj : List (List Char × JValue) → JValue
deriving Repr

def jsonSkipWs (s : List Char) : List Char :=
  s.dropWhile (fun c => c = ' ' || c = '\t' || c = '\n' || c = '\r')

def jsonEscape (c : Char) : Option Char :=
  if c = '"' then some '"'
  else if c = '\\' then some '\\'
  else if c = '/' then some '/'
  else if c = 'b' then some '\x08'
  else if c = 'f' then some '\x0c'
  else if c = 'n' then some '\n'
  else if c = 'r' then some '\r'
  else if c = 't' then some '\t'
  else none

def hexVal (c : Char) : Option ℕ :=
  if '0' ≤ c ∧ c ≤ '9' then some (c.toNat - 48)
  else if 'a' ≤ c ∧ c ≤ 'f' then some (c.toNat - 87)
  else if 'A' ≤ c ∧ c ≤ 'F' then some (c.toNat - 55)
  else none

/-- A code point as a `Char`; code points `Char` cannot represent (lone
surrogates) become U+FFFD. -/
def charOfCode (n : ℕ) : Char :=
  if n.isValidChar then Char.ofNat n else '\uFFFD'

def jsonStringLoop : (gas : ℕ) → List Char → Option (List Char × List Char)
  | 0, _ => none
  | gas + 1, s =>
    match s with
    | [] => none
    | c :: rest =>
      if c = '"' then some ([], rest)
      else if c = '\\' then
        match rest with
        | [] => none
        | 'u' :: h1 :: h2 :: h3 :: h4 :: rest2 =>
          match hexVal h1, hexVal h2, hexVal h3, hexVal h4 with
          | some a, some b, some c2, some d =>
            let code := ((a * 16 + b) * 16 + c2) * 16 + d
            if 0xD800 ≤ code ∧ code ≤ 0xDBFF then
              match rest2 with
              | '\\' :: 'u' :: g1 :: g2 :: g3 :: g4 :: rest3 =>
                match hexVal g1, hexVal g2, hexVal g3, hexVal g4 with
                | some a2, some b2, some c3, some d2 =>
                  let code2 := ((a2 * 16 + b2) * 16 + c3) * 16 + d2
                  if 0xDC00 ≤ code2 ∧ code2 ≤ 0xDFFF then
                    match jsonStringLoop gas rest3 with
                    | none => none
                    | some (tail, rem) =>
                      some (charOfCode (0x10000 + (code - 0xD800) * 0x400 +
                        (code2 - 0xDC00)) :: tail, rem)
                  else
                    match jsonStringLoop gas rest2 with
                    | none => none
                    | some (tail, rem) => some ('\uFFFD' :: tail, rem)
                | _, _, _, _ =>
                  match jsonStringLoop gas rest2 with
                  | none => none
                  | some (tail, rem) => some ('\uFFFD' :: tail, rem)
              | _ =>
                match jsonStringLoop gas rest2 with
                | none => none
                | some (tail, rem) => some ('\uFFFD' :: tail, rem)
            else if 0xDC00 ≤ code ∧ code ≤ 0xDFFF then
              match jsonStringLoop gas rest2 with
              | none => none
              | some (tail, rem) => some ('\uFFFD' :: tail, rem)
            else
              match jsonStringLoop gas rest2 with
              | none => none
              | some (tail, rem) => some (charOfCode code :: tail, rem)
          | _, _, _, _ => none
        | e :: rest2 =>
          match jsonEscape e with
          | none => none
          | some d =>
            match jsonStringLoop gas rest2 with
            | none => none
            | some (tail, rem) => some (d :: tail, rem)
      else if c.toNat < 0x20 then none
      else
        match jsonStringLoop gas rest with
        | none => none
        | some (tail, rem) => some (c :: tail, rem)

/-- The body of a JSON string after the opening `"`. Every step consumes at
least one character, so `s.length + 1` iterations always suffice. -/
def jsonString (s : List Char) : Option (List Char × List Char) :=
  jsonStringLoop (s.length + 1) s

def jsonDigits (s : List Char) : List Char × List Char :=
  (s.takeWhile Char.isDigit, s.dropWhile Char.isDigit)

def digitsToNat (ds : List Char) : ℕ :=
  ds.foldl (fun acc d => 10 * acc + (d.toNat - 48)) 0

/-- The optional `frac` part of a JSON number: `.` followed by at least one
digit. -/
def jsonFracPart : List Char → Option (List Char × List Char)
  | '.' :: r =>
    match jsonDigits r with
    | ([], _) => none
    | (fD, rem) => some (fD, rem)
  | s => some ([], s)

/-- The optional `exp` part of a JSON number: `e`/`E`, an optional sign, and
at least one digit. -/
def jsonExpPart : List Char → Option (Option Int × List Char)
  | c :: r =>
    if c = 'e' ∨ c = 'E' then
      match r with
      | '+' :: r2 =>
        match jsonDigits r2 with
        | ([], _) => none
        | (d, rem) => some (some (digitsToNat d : Int), rem)
      | '-' :: r2 =>
        match jsonDigits r2 with
        | ([], _) => none
        | (d, rem) => some (some (-(digitsToNat d : Int)), rem)
      | _ =>
        match jsonDigits r with
        | ([], _) => none
        | (d, rem) => some (some (digitsToNat d : Int), rem)
    else some (none, c :: r)
  | [] => some (none, [])

/-- A JSON number after its optional leading `-`: an integer token yields an
exact `Int`; the presence of a fraction or exponent part yields a float
token. Leading zeros are rejected, as in the JSON grammar. -/
def jsonNumber (neg : Bool) (s : List Char) : Option (JValue × List Char) :=
  match jsonDigits s with
  | ([], _) => none
  | (iD, rem) =>
    if iD.head? = some '0' ∧ 1 < iD.length then none
    else
      match jsonFracPart rem with
      | none => none
      | some (fD, rem2) =>
        match jsonExpPart rem2 with
        | none => none
        | some (eo, rem3) =>
          match fD, eo with
          | [], none =>
            some (.jnum (if neg then -(digitsToNat iD : Int)
              else (digitsToNat iD : Int)), rem3)
          | _, _ =>
            some (.jfloat neg iD fD (match eo with | none => 0 | some e => e),
              rem3)

def dictInsert (kvs : List (List Char × JValue)) (k : List Char) (v : JValue) :
    List (List Char × JValue) :=
  if kvs.any (fun kv => kv.1 = k) then
    kvs.map (fun kv => if kv.1 = k then (k, v) else kv)
  else kvs ++ [(k, v)]

mutual

def jsonValue (fuel : ℕ) (s : List Char) : Option (JValue × List Char) :=
  match fuel with
  | 0 => none
  | fuel + 1 =>
    match jsonSkipWs s with
    | [] => none
    | c :: rest =>
      if c = 'n' then
        match rest with
        | 'u' :: 'l' :: 'l' :: rem => some (.jnull, rem)
        | _ => none
      else if c = 't' then
        match rest with
        | 'r' :: 'u' :: 'e' :: rem => some (.jbool true, rem)
        | _ => none
      else if c = 'f' then
        match rest with
        | 'a' :: 'l' :: 's' :: 'e' :: rem => some (.jbool false, rem)
        | _ => none
      else if c = 'I' then
        match rest with
        | 'n' :: 'f' :: 'i' :: 'n' :: 'i' :: 't' :: 'y' :: rem =>
          some (.jinf false, rem)
        | _ => none
      else if c = 'N' then
        match rest with
        | 'a' :: 'N' :: rem => some (.jnan, rem)
        | _ => none
      else if c = '"' then
        match jsonString rest with
        | none => none
        | some (str, rem) => some (.jstr str, rem)
      else if c = '-' then
        match rest with
        | 'I' :: 'n' :: 'f' :: 'i' :: 'n' :: 'i' :: 't' :: 'y' :: rem =>
          some (.jinf true, rem)
        | _ => jsonNumber true rest
      else if c.isDigit then jsonNumber false (c :: rest)
      else if c = '[' then
        match jsonSkipWs rest with
        | ']' :: rem => some (.jarr [], rem)
        | _ => jsonArrayItems fuel rest []
      else if c = '\x7b' then
        match jsonSkipWs rest with
        | '\x7d' :: rem => some (.jobj [], rem)
        | _ => jsonObjectItems fuel rest []
      else none

def jsonArrayItems (fuel : ℕ) (s : List Char) (acc : List JValue) :
    Option (JValue × List Char) :=
  match fuel with
  | 0 => none
  | fuel + 1 =>
    match jsonValue fuel s with
    | none => none
    | some (v, rem) =>
      match jsonSkipWs rem with
      | ',' :: rem2 => jsonArrayItems fuel rem2 (acc ++ [v])
      | ']' :: rem2 => some (.jarr (acc ++ [v]), rem2)
      | _ => none

def jsonObjectItems (fuel : ℕ) (s : List Char)
    (acc : List (List Char × JValue)) : Option (JValue × List Char) :=
  match fuel with
  | 0 => none
  | fuel + 1 =>
    match jsonSkipWs s with
    | '"' :: rest =>
      match jsonString rest with
      | none => none
      | some (key, rem) =>
        match jsonSkipWs rem with
        | ':' :: rem2 =>
          match jsonValue fuel rem2 with
          | none => none
          | some (v, rem3) =>
            match jsonSkipWs rem3 with
            | ',' :: rem4 => jsonObjectItems fuel rem4 (dictInsert acc key v)
            | '\x7d' :: rem4 => some (.jobj (dictInsert acc key v), rem4)
            | _ => none
        | _ => none
    | _ => none

end

/-- Model of `json.loads`: parse one value and require only whitespace after
it; `none` models a raised `JSONDecodeError`. -/
def jsonLoads (s : List Char) : Option JValue :=
  match jsonValue (s.length + 1) s with
  | none => none
  | some (v, rem) => if jsonSkipWs rem = [] then some v else none

/-! Model of Python's `str`/`repr` rendering of decoded values.

`str(float)` is rendered from the exact decimal value: positional with at
least one fractional digit when the scientific exponent lies in `[-4, 15]`,
otherwise exponential with a sign and a two-digit minimum exponent — this is
CPython's format, and the digits agree with CPython whenever the literal is
within double precision (shortest-round-trip rounding of IEEE doubles is not
modelled). `repr(str)` uses single quotes unless the string contains `'` and
no `"`; it escapes the backslash, the quote character, `\n`, `\r`, `\t`,
and other C0 controls and DEL as `\xHH` (CPython's Unicode printability
classes beyond ASCII are not distinguished). -/

/-- Python's `str` of a float given as exact decimal data. -/
def pyFloatStr (neg : Bool) (iD fD : List Char) (e : Int) : List Char :=
  let M := iD ++ fD
  if M.all (· = '0') then
    (if neg then '-' :: "0.0".toList else "0.0".toList)
  else
    let M1 := M.dropWhile (· = '0')
    let tz := (M1.reverse.takeWhile (· = '0')).length
    let M2 := M1.take (M1.length - tz)
    let decExp : Int := e - (fD.length : Int) + (tz : Int)
    let k := M2.length
    let sciExp : Int := (k : Int) - 1 + decExp
    let body :=
      if -4 ≤ sciExp ∧ sciExp ≤ 15 then
        if 0 ≤ decExp then M2 ++ List.replicate decExp.toNat '0' ++ ".0".toList
        else
          let t : Int := (k : Int) + decExp
          if 0 < t then M2.take t.toNat ++ '.' :: M2.drop t.toNat
          else '0' :: '.' :: (List.replicate (-t).toNat '0' ++ M2)
      else
        let mant :=
          match M2 with
          | [] => ['0']
          | [d] => [d]
          | d :: ds => d :: '.' :: ds
        let edigits := (toString sciExp.natAbs).toList
        let edigits := if edigits.length < 2 then '0' :: edigits else edigits
        mant ++ 'e' :: (if sciExp < 0 then '-' else '+') :: edigits
    if neg then '-' :: body else body

def hexDigitChar (n : ℕ) : Char :=
  if n < 10 then Char.ofNat (48 + n) else Char.ofNat (87 + n)

/-- The quote Python's `repr` picks for a string. -/
def pyReprQuote (s : List Char) : Char :=
  if '\'' ∈ s ∧ ¬ '"' ∈ s then '"' else '\''

/-- One character inside a Python string `repr`, relative to the chosen
quote. -/
def pyReprCharEsc (q c : Char) : List Char :=
  if c = '\\' then ['\\', '\\']
  else if c = q then ['\\', q]
  else if c = '\n' then ['\\', 'n']
  else if c = '\r' then ['\\', 'r']
  else if c = '\t' then ['\\', 't']
  else if c.toNat < 0x20 ∨ c.toNat = 0x7f then
    ['\\', 'x', hexDigitChar (c.toNat / 16), hexDigitChar (c.toNat % 16)]
  else [c]

def pyReprString (s : List Char) : List Char :=
  let q := pyReprQuote s
  q :: s.foldr (fun c acc => pyReprCharEsc q c ++ acc) [q]

mutual

def pyRepr : JValue → List Char
  | .jnull => "None".toList
  | .jbool true => "True".toList
  | .jbool false => "False".toList
  | .jnum n => (toString n).toList
  | .jfloat neg iD fD e => pyFloatStr neg iD fD e
  | .jinf neg => if neg then '-' :: "inf".toList else "inf".toList
  | .jnan => "nan".toList
  | .jstr s => pyReprString s
  | .jarr xs => '[' :: (pyReprArrItems xs ++ [']'])
  | .jobj kvs => '\x7b' :: (pyReprObjItems kvs ++ ['\x7d'])

def pyReprArrItems : List JValue → List Char
  | [] => []
  | [x] => pyRepr x
  | x :: y :: xs => pyRepr x ++ ',' :: ' ' :: pyReprArrItems (y :: xs)

def pyReprObjItems : List (List Char × JValue) → List Char
  | [] => []
  | [(k, v)] => pyReprString k ++ ':' :: ' ' :: pyRepr v
  | (k, v) :: kv2 :: kvs =>
    pyReprString k ++ ':' :: ' ' :: pyRepr v ++
      ',' :: ' ' :: pyReprObjItems (kv2 :: kvs)

end

/-- Model of Python's `str(x)` on a JSON-decoded value: the identity on
strings, `repr` otherwise (and `str = repr` on every non-string value
here). -/
def pyStr : JValue → List Char
  | .jstr s => s
  | v => pyRepr v

/-- `re.split(r"[,;\n]+", s)`: split on maximal runs of commas, semicolons
and newlines (a leading or trailing run contributes an empty token, as in
`re.split`). -/
def isSchemaDelim (c : Char) : Bool :=
  c = ',' || c = ';' || c = '\n'

def splitDelimsLoop : (gas : ℕ) → List Char → List Char → List (List Char)
  | 0, _, _ => []
  | gas + 1, s, acc =>
    match s with
    | [] => [acc.reverse]
    | c :: rest =>
      if isSchemaDelim c then
        acc.reverse :: splitDelimsLoop gas (rest.dropWhile isSchemaDelim) []
      else
        splitDelimsLoop gas rest (c :: acc)

/-- Each step consumes at least one character, so `s.length + 1` steps always
suffice. -/
def schemaSplit (s : List Char) : List (List Char) :=
  splitDelimsLoop (s.length + 1) s []

def default_extraction_fields : List String :=
  ["CompanyName", "Address", "Website", "ContactName", "ContactTitle",
   "Email", "Phone", "ProductsOrServices", "PricingModel",
   "KeyDates", "ContractLength", "PaymentTerms", "Notes"]

/-- The non-JSON path: split on `[,;\n]+`, strip, keep non-empty tokens, and
fall back to the fixed default field list when nothing remains. -/
def fallbackSchema (schema_text : List Char) : List String :=
  let raw := ((schemaSplit schema_text).map pyStrip).filter (fun w => w ≠ [])
  if raw.isEmpty then default_extraction_fields else raw.map String.mk

def parse_extraction_schema (schema_text : List Char) : List String :=
  match jsonLoads schema_text with
  | some (.jobj kvs) => kvs.map (fun kv => String.mk kv.1)
  | some (.jarr xs) => xs.map (fun x => String.mk (pyStr x))
  | _ => fallbackSchema schema_text

/-! ## `src/services/embedding_service.py` — `normalize_embeddings`

`np.linalg.norm(embeddings, axis=1, keepdims=True)` computes the L2 norm of
each row; `np.where(norms == 0, 1, norms)` replaces zero norms by 1; the
division is rowwise. Floats are modelled as real numbers. -/

noncomputable def l2norm (v : List ℝ) : ℝ :=
  Real.sqrt ((v.map fun x => x * x).sum)

noncomputable def normalizeRow (v : List ℝ) : List ℝ :=
  let n := l2norm v
  let n' := if n = 0 then 1 else n
  v.map (· / n')

noncomputable def normalize_embeddings (vs : List (List ℝ)) : List (List ℝ) :=
  vs.map normalizeRow

/-! ## Lemmas about the chunking loop -/

lemma splitLoop_head_eq (t : List Char) (cs ov gas s y : ℕ)
    (h : ((splitLoop t cs ov gas s).map Prod.fst).head? = some y) : y = s := by
  cases gas with
  | zero => simp [splitLoop] at h
  | succ gas =>
    simp only [splitLoop] at h
    by_cases hs : s < t.length
    · rw [if_pos hs] at h
      split at h <;> simp_all
    · rw [if_neg hs] at h
      simp at h

lemma splitLoop_chain (t : List Char) (cs ov : ℕ) :
    ∀ gas s, List.Chain' (fun a b => a + 1 ≤ b)
      ((splitLoop t cs ov gas s).map Prod.fst) := by
  intro gas
  induction gas with
  | zero => intro s; simp [splitLoop]
  | succ gas ih =>
    intro s
    simp only [splitLoop]
    by_cases hs : s < t.length
    · rw [if_pos hs]
      split
      · simp
      · rw [List.map_cons]
        refine List.chain'_cons'.2 ⟨fun y hy => ?_, ih _⟩
        rw [Option.mem_def] at hy
        have hy' := splitLoop_head_eq t cs ov gas _ y hy
        rw [hy']
        exact Nat.le_max_left _ _
    · rw [if_neg hs]
      simp

lemma splitLoop_gas_irrelevant (t : List Char) (cs ov : ℕ) :
    ∀ g1 g2 s, t.length - s ≤ g1 → g1 ≤ g2 →
      splitLoop t cs ov g2 s = splitLoop t cs ov g1 s := by
  intro g1
  induction g1 with
  | zero =>
    intro g2 s h1 _
    have hs : ¬ s < t.length := by omega
    cases g2 with
    | zero => rfl
    | succ g2 => simp [splitLoop, hs]
  | succ g1 ih =>
    intro g2 s h1 h2
    obtain ⟨g2', rfl⟩ : ∃ g2', g2 = g2' + 1 := ⟨g2 - 1, by omega⟩
    simp only [splitLoop]
    by_cases hs : s < t.length
    · rw [if_pos hs, if_pos hs]
      split_ifs with hend
      · rfl
      · congr 1
        apply ih
        · have := Nat.le_max_left (s + 1)
            ((boundaryAdjust t cs s ((t.drop s).take cs) (s + cs)).2 - ov)
          omega
        · omega
    · rw [if_neg hs, if_neg hs]

/-- **C4**: for every text, every `chunk_size ≥ 1` and every `overlap`
(including `overlap ≥ chunk_size`), the chunking loop terminates — running it
with any iteration bound of at least `text.length - start` gives the same
result as `splitAux`, i.e. `text.length - start` iterations always suffice —
because the window start strictly increases by at least 1 between two
consecutively produced chunks of the same page (the `Chain'` conjunct). -/
theorem C4_chunker_strict_progress (text : List Char) (chunk_size overlap : ℕ)
    (hcs : 1 ≤ chunk_size) :
    (∀ gas start, text.length - start ≤ gas →
        splitLoop text chunk_size overlap gas start =
          splitAux text chunk_size overlap start) ∧
    ∀ start, List.Chain' (fun a b => a + 1 ≤ b)
      ((splitAux text chunk_size overlap start).map Prod.fst) := by
  constructor
  · intro gas start h
    exact splitLoop_gas_irrelevant text chunk_size overlap _ gas start le_rfl h
  · intro start
    exact splitLoop_chain text chunk_size overlap _ start

/-- Witness for C4 at a concrete input. -/
theorem C4_chunker_strict_progress_witness :
    1 ≤ 10 ∧
    List.Chain' (fun a b => a + 1 ≤ b)
      ((splitAux "aaaaaa.bbbb.cccccccc".toList 10 3 0).map Prod.fst) :=
  ⟨by decide,
   (C4_chunker_strict_progress "aaaaaa.bbbb.cccccccc".toList 10 3 (by decide)).2 0⟩

/-- **C1** (failing input for the sentence-aware boundary claim): on
`text = "aaaaaa.bbbb.cccccccc"` with `chunk_size = 10`, `overlap = 3`, the
second window starts at 4 and spans `[4, 14)`; its last `.` sits at absolute
position 11 = 4 + 7 (`rfind` on the window text returns the *relative* index
7, and there is no later `.` or newline), which is past the window midpoint
`4 + 10/2 = 9`, so the claim requires that window's chunk to be
`text[4:12] = "aa.bbbb."`. The code instead compares the relative index 7
against the absolute threshold 9, finds `7 > 9` false, and emits the full
window `"aa.bbbb.cc"`. -/
theorem C1_sentence_boundary_failing_input :
    (splitAux "aaaaaa.bbbb.cccccccc".toList 10 3 0).map
        (fun p => (p.1, String.mk p.2)) =
      [(0, "aaaaaa."), (4, "aa.bbbb.cc"), (11, ".cccccccc")] ∧
    rfind (("aaaaaa.bbbb.cccccccc".toList.drop 4).take 10) '.' = 7 ∧
    rfind (("aaaaaa.bbbb.cccccccc".toList.drop 4).take 10) '\n' = -1 ∧
    "aaaaaa.bbbb.cccccccc".toList.get? 11 = some '.' ∧
    4 + 10 / 2 < 11 ∧
    (("aaaaaa.bbbb.cccccccc".toList.drop 4).take (11 + 1 - 4)) =
      "aa.bbbb.".toList := by
  decide

/-- **C10**: passing `chunk_size = 0`/`None` or `overlap = 0`/`None` to
`create_chunks` is the same as passing the configured defaults 2000 and 350,
because both parameters go through the Python truthiness idiom
`x or DEFAULT`; in particular an explicitly requested overlap of 0 is
silently replaced by 350, and no argument can make the effective overlap 0. -/
theorem C10_falsy_parameter_defaulting (ids : ℕ → List Char)
    (pages : List (List Char × ℕ)) :
    create_chunks ids pages (some 0) (some 0) =
      create_chunks ids pages none none ∧
    (∀ overlap?, create_chunks ids pages (some 0) overlap? =
      create_chunks ids pages none overlap?) ∧
    (∀ chunk_size?, create_chunks ids pages chunk_size? (some 0) =
      create_chunks ids pages chunk_size? none) ∧
    create_chunks ids pages none none =
      create_chunks ids pages (some 2000) (some 350) ∧
    falsyOr (some 0) DEFAULT_OVERLAP = 350 ∧
    ∀ overlap?, falsyOr overlap? DEFAULT_OVERLAP ≠ 0 := by
  refine ⟨rfl, fun _ => rfl, fun _ => rfl, rfl, rfl, fun overlap? => ?_⟩
  match overlap? with
  | none => simp [falsyOr, DEFAULT_OVERLAP]
  | some n =>
    by_cases h : n = 0 <;> simp [falsyOr, DEFAULT_OVERLAP, h]

/-- **C5**: starting from any store satisfying the invariant
`index size = metadata length`, `add_embeddings` with mismatched lengths
fails with the validation error and (being a pure function of the old store)
leaves the store unchanged, while with matching lengths it appends both the
vectors and the metadata in order, re-establishing the invariant. -/
theorem C5_add_embeddings_contract (vs : VectorStore)
    (E : List (List ℚ)) (C : List DocumentChunk)
    (hinv : vs.index.length = vs.chunk_metadata.length) :
    (E.length ≠ C.length →
      add_embeddings vs E C =
        .error "Number of embeddings must match number of chunks") ∧
    (E.length = C.length →
      ∃ vs', add_embeddings vs E C = .ok vs' ∧
        vs'.index = vs.index ++ E ∧
        vs'.chunk_metadata = vs.chunk_metadata ++ C ∧
        vs'.index.length = vs'.chunk_metadata.length) := by
  constructor
  · intro h
    simp [add_embeddings, h]
  · intro h
    refine ⟨⟨vs.dimension, vs.index ++ E, vs.chunk_metadata ++ C⟩, ?_, rfl, rfl, ?_⟩
    · simp [add_embeddings, h]
    · simp [h, hinv]

/-- Witness for C5: both branches exercised on concrete stores. -/
theorem C5_add_embeddings_contract_witness :
    ([[(1 : ℚ)]].length ≠ ([] : List DocumentChunk).length ∧
      add_embeddings ⟨2, [], []⟩ [[(1 : ℚ)]] [] =
        .error "Number of embeddings must match number of chunks") ∧
    [[(1 : ℚ)]].length = [(⟨"x".toList, 1, "id".toList⟩ : DocumentChunk)].length ∧
    ∃ vs', add_embeddings ⟨2, [], []⟩ [[(1 : ℚ)]]
        [⟨"x".toList, 1, "id".toList⟩] = .ok vs' ∧
      vs'.index = [] ++ [[(1 : ℚ)]] ∧
      vs'.chunk_metadata = [] ++ [⟨"x".toList, 1, "id".toList⟩] ∧
      vs'.index.length = vs'.chunk_metadata.length := by
  refine ⟨⟨by decide, ?_⟩, by decide, ?_⟩
  · exact (C5_add_embeddings_contract ⟨2, [], []⟩ [[(1 : ℚ)]] [] rfl).1
      (by decide)
  · exact (C5_add_embeddings_contract ⟨2, [], []⟩ [[(1 : ℚ)]]
      [⟨"x".toList, 1, "id".toList⟩] rfl).2 (by decide)

/-! ## Lemmas about chunk-id assignment -/

lemma enumFrom_map_apply_fst {α β : Type} (f : ℕ → β) :
    ∀ (l : List α) (i : ℕ),
      (l.enumFrom i).map (fun pr => f pr.1) =
        (List.range l.length).map (fun n => f (i + n)) := by
  intro l
  induction l with
  | nil => intro i; simp
  | cons a as ih =>
    intro i
    simp only [List.enumFrom_cons, List.map_cons, List.length_cons,
      List.range_succ_eq_map, List.map_map]
    refine congrArg₂ List.cons (by simp) ?_
    rw [ih (i + 1)]
    apply List.map_congr_left
    intro n _
    simp only [Function.comp_apply, Nat.succ_eq_add_one]
    exact congrArg f (by omega)

lemma create_chunks_aux_chunk_ids (ids : ℕ → List Char) (cs ov : ℕ) :
    ∀ (pages : List (List Char × ℕ)) (k : ℕ),
      (create_chunks_aux ids cs ov pages k).map DocumentChunk.chunk_id =
        (List.range (create_chunks_aux ids cs ov pages k).length).map
          (fun n => (ids (k + n)).take 8) := by
  intro pages
  induction pages with
  | nil => intro k; simp [create_chunks_aux]
  | cons pg rest ih =>
    intro k
    obtain ⟨text, page_num⟩ := pg
    simp only [create_chunks_aux]
    generalize (split_text_into_chunks text cs ov).filter
      (fun t => MIN_CHUNK_SIZE ≤ (pyStrip t).length) = kept
    rw [List.map_append, List.length_append, List.length_map, List.enum_length,
      List.range_add, List.map_append]
    refine congrArg₂ (· ++ ·) ?_ ?_
    · rw [List.map_map]
      have hfun : (DocumentChunk.chunk_id ∘ fun pr : ℕ × List Char =>
          ({ text := pr.2, page_num := page_num,
             chunk_id := (ids (k + pr.1)).take 8 } : DocumentChunk)) =
          fun pr => (ids (k + pr.1)).take 8 := rfl
      rw [hfun]
      rw [show kept.enum = kept.enumFrom 0 from rfl]
      rw [enumFrom_map_apply_fst (fun n => (ids (k + n)).take 8) kept 0]
      apply List.map_congr_left
      intro n _
      simp
    · rw [ih (k + kept.length), List.map_map]
      apply List.map_congr_left
      intro n _
      simp only [Function.comp_apply]
      exact congrArg (fun m => (ids m).take 8) (by omega)

set_option maxRecDepth 100000 in
/-- **C9 counterexample**: the claim that chunk ids are always pairwise
distinct fails for a run of `create_chunks` in which the external uuid source
draws the same value twice: a single 120-character page split with
`chunk_size = 60`, `overlap = 10` produces two surviving chunks, and a
(possible, since ids are truncated to 8 characters) repeated draw gives them
the same `chunk_id`. -/
theorem C9_chunk_ids_counterexample :
    ¬ (((create_chunks (fun _ => "aaaaaaaa".toList)
        [(List.replicate 120 'a', 1)] (some 60) (some 10)).map
          DocumentChunk.chunk_id).Nodup) := by
  decide

/-- **C9 amended**: the `chunk_id` values assigned by `create_chunks` in one
indexing run are exactly the 8-character prefixes of the successive
`uuid.uuid4()` draws, and they are pairwise distinct whenever those drawn
prefixes are pairwise distinct — which the code relies on but does not
enforce. -/
theorem C9_chunk_ids_unique_amended (ids : ℕ → List Char)
    (pages : List (List Char × ℕ)) (chunk_size? overlap? : Option ℕ)
    (h : ((List.range (create_chunks ids pages chunk_size? overlap?).length).map
        (fun n => (ids n).take 8)).Nodup) :
    ((create_chunks ids pages chunk_size? overlap?).map
        DocumentChunk.chunk_id).Nodup := by
  have e := create_chunks_aux_chunk_ids ids (falsyOr chunk_size? DEFAULT_CHUNK_SIZE)
    (falsyOr overlap? DEFAULT_OVERLAP) pages 0
  simp only [create_chunks] at h ⊢
  rw [e]
  simpa using h

set_option maxRecDepth 100000 in
/-- Witness for the amended C9 on a run with distinct draws. -/
theorem C9_chunk_ids_unique_amended_witness :
    ((List.range (create_chunks
        (fun n => List.replicate n 'z' ++ "abcdefgh".toList)
        [(List.replicate 120 'a', 1)] (some 60) (some 10)).length).map
        (fun n => ((fun n => List.replicate n 'z' ++ "abcdefgh".toList) n).take 8)).Nodup ∧
    ((create_chunks (fun n => List.replicate n 'z' ++ "abcdefgh".toList)
        [(List.replicate 120 'a', 1)] (some 60) (some 10)).map
        DocumentChunk.chunk_id).Nodup :=
  ⟨by decide, C9_chunk_ids_unique_amended _ _ _ _ (by decide)⟩

/-- **C6**: `create_index` never propagates an exception — every collaborator
failure is caught and turned into the empty state (`none`) with an
`"Error processing PDF: ..."` message (the Lean model is a total function, so
"never throws" is the totality of `create_index` plus these equations) — and
the two early-exit checks return the empty state with the "no text found" and
"no chunks created" messages. -/
theorem C6_create_index_failure_contract
    (ids : ℕ → List Char)
    (emb : List (List Char) → Except String (List (List ℚ)))
    (nf : List (List ℚ) → List (List ℚ)) (elapsed : String)
    (cs? ov? : Option ℕ) :
    (∀ e, create_index (.error e) ids emb nf elapsed cs? ov? =
        (none, "Error processing PDF: " ++ e)) ∧
    (create_index (.ok []) ids emb nf elapsed cs? ov? =
        (none, "No text found in PDF")) ∧
    (∀ pages, pages ≠ [] → create_chunks ids pages cs? ov? = [] →
        create_index (.ok pages) ids emb nf elapsed cs? ov? =
          (none, "No chunks created from PDF")) ∧
    (∀ pages e, pages ≠ [] →
        create_chunks ids pages cs? ov? ≠ [] →
        emb ((create_chunks ids pages cs? ov?).map (·.text)) = .error e →
        create_index (.ok pages) ids emb nf elapsed cs? ov? =
          (none, "Error processing PDF: " ++ e)) ∧
    (∀ pages E, pages ≠ [] →
        create_chunks ids pages cs? ov? ≠ [] →
        emb ((create_chunks ids pages cs? ov?).map (·.text)) = .ok E →
        (nf E).length ≠ (create_chunks ids pages cs? ov?).length →
        create_index (.ok pages) ids emb nf elapsed cs? ov? =
          (none, "Error processing PDF: " ++
            "Number of embeddings must match number of chunks")) := by
  refine ⟨fun e => rfl, rfl, ?_, ?_, ?_⟩
  · intro pages hne hchunks
    simp [create_index, List.isEmpty_iff, hne, hchunks]
  · intro pages e hne hcne hemb
    simp [create_index, List.isEmpty_iff, hne, hcne, hemb]
  · intro pages E hne hcne hemb hlen
    simp [create_index, List.isEmpty_iff, hne, hcne, hemb, add_embeddings, hlen]

set_option maxRecDepth 100000 in
/-- Witness for C6: all five contract cases at concrete inputs. -/
theorem C6_create_index_failure_contract_witness :
    create_index (.error "boom") (fun _ => "aaaaaaaa".toList)
        (fun _ => .ok []) id "0.01" none none =
      (none, "Error processing PDF: " ++ "boom") ∧
    create_index (.ok []) (fun _ => "aaaaaaaa".toList)
        (fun _ => .ok []) id "0.01" none none =
      (none, "No text found in PDF") ∧
    create_index (.ok [("ab".toList, 1)]) (fun _ => "aaaaaaaa".toList)
        (fun _ => .ok []) id "0.01" none none =
      (none, "No chunks created from PDF") ∧
    create_index (.ok [(List.replicate 60 'a', 1)]) (fun _ => "aaaaaaaa".toList)
        (fun _ => .error "api down") id "0.01" none none =
      (none, "Error processing PDF: " ++ "api down") ∧
    create_index (.ok [(List.replicate 60 'a', 1)]) (fun _ => "aaaaaaaa".toList)
        (fun _ => .ok []) id "0.01" none none =
      (none, "Error processing PDF: " ++
        "Number of embeddings must match number of chunks") := by
  refine ⟨(C6_create_index_failure_contract _ _ _ _ _ _).1 "boom",
    (C6_create_index_failure_contract _ _ _ _ _ _).2.1, ?_, ?_, ?_⟩
  · exact (C6_create_index_failure_contract _ _ _ _ _ _).2.2.1
      [("ab".toList, 1)] (by decide) (by decide)
  · exact (C6_create_index_failure_contract _ _ _ _ _ _).2.2.2.1
      [(List.replicate 60 'a', 1)] "api down" (by decide) (by decide) rfl
  · exact (C6_create_index_failure_contract _ _ _ _ _ _).2.2.2.2
      [(List.replicate 60 'a', 1)] [] (by decide) (by decide) rfl (by decide)

/-! ## Lemmas about result fusion -/

/-- Specification-side single-pass deduplication: keep each entry whose key
is unseen, first occurrence wins. -/
def fusionDedup : List (DocumentChunk × ℚ) → List (List Char) →
    List (DocumentChunk × ℚ)
  | [], _ => []
  | (m, s) :: rest, seen =>
    if chunk_key m ∈ seen then fusionDedup rest seen
    else (m, s) :: fusionDedup rest (chunk_key m :: seen)

/-- The seen-set after such a pass. -/
def fusionSeen : List (DocumentChunk × ℚ) → List (List Char) → List (List Char)
  | [], seen => seen
  | (m, _) :: rest, seen =>
    if chunk_key m ∈ seen then fusionSeen rest seen
    else fusionSeen rest (chunk_key m :: seen)

lemma dedupPass_eq : ∀ (l : List (DocumentChunk × ℚ))
    (acc : List (DocumentChunk × ℚ)) (seen : List (List Char)),
    dedupPass l acc seen = (acc ++ fusionDedup l seen, fusionSeen l seen) := by
  intro l
  induction l with
  | nil => intro acc seen; simp [dedupPass, fusionDedup, fusionSeen]
  | cons e rest ih =>
    intro acc seen
    obtain ⟨m, s⟩ := e
    simp only [dedupPass, fusionDedup, fusionSeen]
    by_cases h : chunk_key m ∈ seen
    · simp [h, ih]
    · simp [h, ih]

lemma fusionSeen_subset : ∀ (l : List (DocumentChunk × ℚ))
    (seen : List (List Char)), seen ⊆ fusionSeen l seen := by
  intro l
  induction l with
  | nil => intro seen; simp [fusionSeen]
  | cons e rest ih =>
    intro seen
    obtain ⟨m, s⟩ := e
    simp only [fusionSeen]
    by_cases h : chunk_key m ∈ seen
    · simpa [h] using ih seen
    · simp only [if_neg h]
      exact fun k hk => ih (chunk_key m :: seen) (List.mem_cons_of_mem _ hk)

lemma fusionDedup_key_mem : ∀ (l : List (DocumentChunk × ℚ))
    (seen : List (List Char)) (k : List Char),
    k ∈ (fusionDedup l seen).map (fun e => chunk_key e.1) →
      k ∉ seen ∧ k ∈ fusionSeen l seen := by
  intro l
  induction l with
  | nil => intro seen k h; simp [fusionDedup] at h
  | cons e rest ih =>
    intro seen k h
    obtain ⟨m, s⟩ := e
    simp only [fusionDedup, fusionSeen] at h ⊢
    by_cases hm : chunk_key m ∈ seen
    · rw [if_pos hm] at h ⊢
      exact ih seen k h
    · rw [if_neg hm] at h ⊢
      rw [List.map_cons] at h
      rcases List.mem_cons.mp h with hk | hk
      · subst hk
        exact ⟨hm, fusionSeen_subset rest _ (List.mem_cons_self _ _)⟩
      · obtain ⟨h1, h2⟩ := ih (chunk_key m :: seen) k hk
        exact ⟨fun hc => h1 (List.mem_cons_of_mem _ hc), h2⟩

lemma fusionDedup_keys_nodup : ∀ (l : List (DocumentChunk × ℚ))
    (seen : List (List Char)),
    ((fusionDedup l seen).map (fun e => chunk_key e.1)).Nodup := by
  intro l
  induction l with
  | nil => intro seen; simp [fusionDedup]
  | cons e rest ih =>
    intro seen
    obtain ⟨m, s⟩ := e
    simp only [fusionDedup]
    by_cases hm : chunk_key m ∈ seen
    · rw [if_pos hm]; exact ih seen
    · rw [if_neg hm]
      simp only [List.map_cons, List.nodup_cons]
      refine ⟨fun hc => ?_, ih (chunk_key m :: seen)⟩
      exact (fusionDedup_key_mem rest (chunk_key m :: seen) _ hc).1
        (List.mem_cons_self _ _)

lemma fusionDedup_of_nodup : ∀ (l : List (DocumentChunk × ℚ))
    (seen : List (List Char)),
    (∀ k ∈ l.map (fun e => chunk_key e.1), k ∉ seen) →
    (l.map (fun e => chunk_key e.1)).Nodup →
    fusionDedup l seen = l := by
  intro l
  induction l with
  | nil => intro seen _ _; rfl
  | cons e rest ih =>
    intro seen hdis hnd
    obtain ⟨m, s⟩ := e
    simp only [List.map_cons, List.nodup_cons] at hnd
    have hm : chunk_key m ∉ seen := hdis _ (by simp)
    simp only [fusionDedup, if_neg hm]
    refine congrArg _ (ih (chunk_key m :: seen) ?_ hnd.2)
    intro k hk
    simp only [List.mem_cons, not_or]
    exact ⟨fun hc => hnd.1 (hc ▸ hk), hdis k (List.mem_cons_of_mem _ hk)⟩

lemma combined_results_eq (semantic keyword : List (DocumentChunk × ℚ)) :
    combined_results semantic keyword =
      fusionDedup semantic [] ++ fusionDedup keyword (fusionSeen semantic []) := by
  simp [combined_results, dedupPass_eq]

/-- **C2**: `_combine_search_results` fuses semantic and keyword results by
the key `f"{page_num}_{chunk_id}"`: the fused (pre-sort) list is the
key-deduplicated semantic list — the whole semantic list itself when its keys
are distinct, so a chunk found by both legs sits at the position of its
semantic rank and keeps its semantic score — followed by the keyword entries
whose keys are new; the returned list has pairwise-distinct keys, is sorted
by score descending, has at most `max(top_k, 8)` entries, and draws every
entry from the fused list. -/
theorem C2_fusion_dedup_and_ordering
    (semantic keyword : List (DocumentChunk × ℚ)) (top_k : ℕ) :
    combined_results semantic keyword =
      fusionDedup semantic [] ++ fusionDedup keyword (fusionSeen semantic []) ∧
    ((semantic.map (fun e => chunk_key e.1)).Nodup →
      fusionDedup semantic [] = semantic) ∧
    ((combine_search_results semantic keyword top_k).map
        (fun e => chunk_key e.1)).Nodup ∧
    (combine_search_results semantic keyword top_k).Pairwise
      (fun a b => ¬ (a.1.page_num = b.1.page_num ∧
        a.1.chunk_id = b.1.chunk_id)) ∧
    (combine_search_results semantic keyword top_k).Pairwise
      (fun a b => b.2 ≤ a.2) ∧
    (combine_search_results semantic keyword top_k).length ≤ max top_k 8 ∧
    ∀ e ∈ combine_search_results semantic keyword top_k,
      e ∈ combined_results semantic keyword := by
  have hnodup : ((combined_results semantic keyword).map
      (fun e => chunk_key e.1)).Nodup := by
    rw [combined_results_eq, List.map_append]
    refine List.Nodup.append (fusionDedup_keys_nodup _ _)
      (fusionDedup_keys_nodup _ _) ?_
    intro k h1 h2
    exact (fusionDedup_key_mem keyword (fusionSeen semantic []) k h2).1
      ((fusionDedup_key_mem semantic [] k h1).2)
  have hperm := List.mergeSort_perm (combined_results semantic keyword)
    (fun a b => decide (b.2 ≤ a.2))
  have hkres : ((combine_search_results semantic keyword top_k).map
      (fun e => chunk_key e.1)).Nodup := by
    rw [combine_search_results, List.map_take]
    exact ((hperm.map (fun e => chunk_key e.1)).nodup_iff.mpr hnodup).sublist
      (List.map_take .. ▸ (List.take_sublist _ _).map _)
  refine ⟨combined_results_eq semantic keyword, ?_, hkres, ?_, ?_, ?_, ?_⟩
  · intro hnd
    exact fusionDedup_of_nodup semantic [] (by simp) hnd
  · refine (List.pairwise_map.mp hkres).imp ?_
    intro a b hne hab
    exact hne (by simp [chunk_key, hab.1, hab.2])
  · rw [combine_search_results]
    refine List.Pairwise.sublist (List.take_sublist _ _)
      ((List.sorted_mergeSort ?_ ?_ (combined_results semantic keyword)).imp ?_)
    · intro a b c hab hbc
      simp only [decide_eq_true_eq] at *
      exact le_trans hbc hab
    · intro a b
      simp only [Bool.or_eq_true, decide_eq_true_eq]
      exact le_total b.2 a.2
    · intro h
      simpa using h
  · rw [combine_search_results]
    exact le_trans (Nat.le_of_eq (List.length_take _ _)) (Nat.min_le_left _ _)
  · intro e he
    rw [combine_search_results] at he
    exact List.mem_mergeSort.mp ((List.take_sublist _ _).subset he)

/-- Witness for C2 at a concrete singleton search result. -/
theorem C2_fusion_witness :
    (([((⟨"t".toList, 1, "c1".toList⟩ : DocumentChunk), (1 : ℚ))].map
        (fun e => chunk_key e.1)).Nodup ∧
      fusionDedup [((⟨"t".toList, 1, "c1".toList⟩ : DocumentChunk), (1 : ℚ))] [] =
        [((⟨"t".toList, 1, "c1".toList⟩ : DocumentChunk), (1 : ℚ))]) ∧
    ((⟨"t".toList, 1, "c1".toList⟩ : DocumentChunk), (1 : ℚ)) ∈
      combine_search_results
        [((⟨"t".toList, 1, "c1".toList⟩ : DocumentChunk), (1 : ℚ))] [] 5 ∧
    ((⟨"t".toList, 1, "c1".toList⟩ : DocumentChunk), (1 : ℚ)) ∈
      combined_results
        [((⟨"t".toList, 1, "c1".toList⟩ : DocumentChunk), (1 : ℚ))] [] := by
  have h := C2_fusion_dedup_and_ordering
    [((⟨"t".toList, 1, "c1".toList⟩ : DocumentChunk), (1 : ℚ))] [] 5
  have hc : combined_results
      [((⟨"t".toList, 1, "c1".toList⟩ : DocumentChunk), (1 : ℚ))] [] =
      [((⟨"t".toList, 1, "c1".toList⟩ : DocumentChunk), (1 : ℚ))] := by decide
  have hmem : ((⟨"t".toList, 1, "c1".toList⟩ : DocumentChunk), (1 : ℚ)) ∈
      combine_search_results
        [((⟨"t".toList, 1, "c1".toList⟩ : DocumentChunk), (1 : ℚ))] [] 5 := by
    rw [combine_search_results, hc]
    simp
  exact ⟨⟨by decide, h.2.1 (by decide)⟩, hmem, h.2.2.2.2.2.2 _ hmem⟩

/-! ## Lemmas about the extraction chunk selector -/

lemma selAppend_mem (l : List DocumentChunk) :
    ∀ (sel : List DocumentChunk) (x : DocumentChunk), x ∈ sel →
      x ∈ l.foldl (fun sel c => if c ∈ sel then sel else sel ++ [c]) sel := by
  induction l with
  | nil => intro sel x hx; simpa using hx
  | cons c t ih =>
    intro sel x hx
    simp only [List.foldl_cons]
    apply ih
    by_cases hc : c ∈ sel
    · simpa [hc] using hx
    · simp only [if_neg hc]
      exact List.mem_append_left _ hx

lemma selAppend_adds (l : List DocumentChunk) :
    ∀ (sel : List DocumentChunk) (x : DocumentChunk), x ∈ l →
      x ∈ l.foldl (fun sel c => if c ∈ sel then sel else sel ++ [c]) sel := by
  induction l with
  | nil => intro sel x hx; simp at hx
  | cons c t ih =>
    intro sel x hx
    simp only [List.foldl_cons]
    rcases List.mem_cons.mp hx with rfl | hx
    · apply selAppend_mem
      by_cases hc : x ∈ sel
      · simpa [hc]
      · simp [hc]
    · exact ih _ x hx

lemma selAppend_length (l : List DocumentChunk) :
    ∀ sel, (l.foldl (fun sel c => if c ∈ sel then sel else sel ++ [c]) sel).length ≤
      sel.length + l.length := by
  induction l with
  | nil => intro sel; simp
  | cons c t ih =>
    intro sel
    simp only [List.foldl_cons, List.length_cons]
    refine le_trans (ih _) ?_
    by_cases hc : c ∈ sel
    · simp [hc] <;> omega
    · simp [hc] <;> omega

lemma sampleFold_mem (chunks : List DocumentChunk) (l : List ℕ) :
    ∀ (sel : List DocumentChunk) (x : DocumentChunk), x ∈ sel →
      x ∈ l.foldl (fun sel idx =>
        match chunks.get? idx with
        | some c => if c ∈ sel then sel else sel ++ [c]
        | none => sel) sel := by
  induction l with
  | nil => intro sel x hx; simpa using hx
  | cons i t ih =>
    intro sel x hx
    simp only [List.foldl_cons]
    apply ih
    rcases hgi : chunks.get? i with _ | c
    · simpa [hgi] using hx
    · simp only [hgi]
      by_cases hc : c ∈ sel
      · simpa [hc] using hx
      · simp only [if_neg hc]
        exact List.mem_append_left _ hx

lemma sampleFold_adds (chunks : List DocumentChunk) (l : List ℕ) :
    ∀ (sel : List DocumentChunk) (idx : ℕ) (c : DocumentChunk), idx ∈ l →
      chunks.get? idx = some c →
      c ∈ l.foldl (fun sel idx =>
        match chunks.get? idx with
        | some c => if c ∈ sel then sel else sel ++ [c]
        | none => sel) sel := by
  induction l with
  | nil => intro sel idx c h; simp at h
  | cons i t ih =>
    intro sel idx c hidx hgc
    simp only [List.foldl_cons]
    rcases List.mem_cons.mp hidx with rfl | hidx
    · apply sampleFold_mem
      simp only [hgc]
      by_cases hc : c ∈ sel
      · simpa [hc]
      · simp [hc]
    · exact ih _ idx c hidx hgc

lemma sampleFold_length (chunks : List DocumentChunk) (l : List ℕ) :
    ∀ sel, (l.foldl (fun sel idx =>
        match chunks.get? idx with
        | some c => if c ∈ sel then sel else sel ++ [c]
        | none => sel) sel).length ≤ sel.length + l.length := by
  induction l with
  | nil => intro sel; simp
  | cons i t ih =>
    intro sel
    simp only [List.foldl_cons, List.length_cons]
    refine le_trans (ih _) ?_
    rcases hgi : chunks.get? i with _ | c
    · simp [hgi] <;> omega
    · simp only [hgi]
      by_cases hc : c ∈ sel
      · simp [hc] <;> omega
      · simp [hc] <;> omega

/-- **C3**: for every keyword matcher and match-count function (the compiled
regex is external) and every chunk list, `_select_relevant_chunks` returns at
most 20 chunks, always includes the first five chunks of the document, and —
whenever at least 25 chunks exist — also includes the chunks at the
structural positions `total/4`, `total/2`, `3*total/4` and `total-5`
(unconditionally, which subsumes the claim's "unless already selected"
proviso: the pre-truncation selection has at most 5 + 10 + 4 = 19 entries,
so the final `[:20]` never drops a sampled chunk). -/
theorem C3_extraction_selection_bounds (kwMatch : DocumentChunk → Bool)
    (cnt : DocumentChunk → ℕ) (chunks : List DocumentChunk) :
    (select_relevant_chunks kwMatch cnt chunks).length ≤ 20 ∧
    (∀ c ∈ chunks.take 5, c ∈ select_relevant_chunks kwMatch cnt chunks) ∧
    (25 ≤ chunks.length →
      ∀ idx ∈ [chunks.length / 4, chunks.length / 2,
        3 * chunks.length / 4, chunks.length - 5],
      ∀ c, chunks.get? idx = some c →
        c ∈ select_relevant_chunks kwMatch cnt chunks) := by
  simp only [select_relevant_chunks]
  set sel0 := chunks.take 5 with hsel0
  set kws := ((chunks.filter kwMatch).mergeSort
    (fun a b => decide (cnt b ≤ cnt a))).take 10 with hkws
  set sel1 := kws.foldl (fun sel c => if c ∈ sel then sel else sel ++ [c]) sel0
    with hsel1
  have hlen0 : sel0.length ≤ 5 := by
    rw [hsel0, List.length_take]
    exact Nat.min_le_left _ _
  have hlenk : kws.length ≤ 10 := by
    rw [hkws, List.length_take]
    exact Nat.min_le_left _ _
  have hlen1 : sel1.length ≤ 15 := by
    refine le_trans (selAppend_length kws sel0) ?_
    omega
  by_cases h20 : 20 < chunks.length
  · simp only [if_pos h20]
    set idxs := [chunks.length / 4, chunks.length / 2,
      3 * chunks.length / 4, chunks.length - 5] with hidxs
    set sel2 := idxs.foldl (fun sel idx =>
      match chunks.get? idx with
      | some c => if c ∈ sel then sel else sel ++ [c]
      | none => sel) sel1 with hsel2
    have hlen2 : sel2.length ≤ 19 := by
      refine le_trans (sampleFold_length chunks idxs sel1) ?_
      rw [hidxs]
      simp only [List.length_cons, List.length_nil]
      omega
    have htake : sel2.take 20 = sel2 := List.take_of_length_le (by omega)
    refine ⟨?_, ?_, ?_⟩
    · rw [List.length_take]
      exact Nat.min_le_left _ _
    · intro c hc
      rw [htake]
      exact sampleFold_mem chunks idxs sel1 c (selAppend_mem kws sel0 c hc)
    · intro _ idx hidx c hgc
      rw [htake]
      exact sampleFold_adds chunks idxs sel1 idx c hidx hgc
  · simp only [if_neg h20]
    have htake : sel1.take 20 = sel1 := List.take_of_length_le (by omega)
    refine ⟨?_, ?_, ?_⟩
    · rw [List.length_take]
      exact Nat.min_le_left _ _
    · intro c hc
      rw [htake]
      exact selAppend_mem kws sel0 c hc
    · intro h25
      omega

/-- Witness for C3 on a concrete 25-chunk document. -/
theorem C3_extraction_selection_bounds_witness :
    (⟨[], 0, []⟩ : DocumentChunk) ∈
      ((List.range 25).map fun n => (⟨[], n, []⟩ : DocumentChunk)).take 5 ∧
    25 ≤ ((List.range 25).map fun n => (⟨[], n, []⟩ : DocumentChunk)).length ∧
    (12 : ℕ) ∈
      [((List.range 25).map fun n => (⟨[], n, []⟩ : DocumentChunk)).length / 4,
       ((List.range 25).map fun n => (⟨[], n, []⟩ : DocumentChunk)).length / 2,
       3 * ((List.range 25).map fun n => (⟨[], n, []⟩ : DocumentChunk)).length / 4,
       ((List.range 25).map fun n => (⟨[], n, []⟩ : DocumentChunk)).length - 5] ∧
    ((List.range 25).map fun n => (⟨[], n, []⟩ : DocumentChunk)).get? 12 =
      some ⟨[], 12, []⟩ ∧
    (⟨[], 0, []⟩ : DocumentChunk) ∈ select_relevant_chunks (fun _ => false)
      (fun _ => 0) ((List.range 25).map fun n => ⟨[], n, []⟩) ∧
    (⟨[], 12, []⟩ : DocumentChunk) ∈ select_relevant_chunks (fun _ => false)
      (fun _ => 0) ((List.range 25).map fun n => ⟨[], n, []⟩) := by
  refine ⟨by decide, by decide, by decide, by decide, ?_, ?_⟩
  · exact (C3_extraction_selection_bounds (fun _ => false) (fun _ => 0)
      ((List.range 25).map fun n => ⟨[], n, []⟩)).2.1 _ (by decide)
  · exact (C3_extraction_selection_bounds (fun _ => false) (fun _ => 0)
      ((List.range 25).map fun n => ⟨[], n, []⟩)).2.2 (by decide) 12
      (by decide) _ (by decide)

/-- **C7**: `_parse_extraction_schema` returns the object keys when the
schema text parses as a JSON object, the stringified elements when it parses
as a JSON array, and otherwise (parse failure or a non-container value) the
trimmed non-empty tokens of a comma/semicolon/newline split, with the fixed
13-field default when no tokens remain; the concrete examples of the spec are
evaluated, together with examples exercising fractional and exponent
numbers, `\u` escapes and nested-string `repr` quoting; the Lean model is a
total function (the Python `try/except` means the function never raises). -/
theorem C7_schema_parsing_dispatch (s : List Char) :
    (∀ kvs, jsonLoads s = some (.jobj kvs) →
      parse_extraction_schema s = kvs.map (fun kv => String.mk kv.1)) ∧
    (∀ xs, jsonLoads s = some (.jarr xs) →
      parse_extraction_schema s = xs.map (fun x => String.mk (pyStr x))) ∧
    (jsonLoads s = none → parse_extraction_schema s = fallbackSchema s) ∧
    (∀ v, jsonLoads s = some v → (∀ kvs, v ≠ .jobj kvs) →
      (∀ xs, v ≠ .jarr xs) →
      parse_extraction_schema s = fallbackSchema s) ∧
    parse_extraction_schema "CompanyName,Address".toList =
      ["CompanyName", "Address"] ∧
    parse_extraction_schema "\x7b\"Name\":\"\",\"City\":\"\"\x7d".toList =
      ["Name", "City"] ∧
    parse_extraction_schema "".toList = default_extraction_fields ∧
    parse_extraction_schema "\x7b\"A\":1.5\x7d".toList = ["A"] ∧
    parse_extraction_schema "[1.50, 2e2, \"two\"]".toList =
      ["1.5", "200.0", "two"] ∧
    parse_extraction_schema "[5e-5]".toList = ["5e-05"] ∧
    parse_extraction_schema "\x7b\"K\\u0065y\": 1\x7d".toList = ["Key"] ∧
    parse_extraction_schema "[[\"a\x27b\"]]".toList =
      ["[\"a\x27b\"]"] := by
  refine ⟨?_, ?_, ?_, ?_, by decide, by decide, by decide, by decide,
    by decide, by decide, by decide, by decide⟩
  · intro kvs h
    simp [parse_extraction_schema, h]
  · intro xs h
    simp [parse_extraction_schema, h]
  · intro h
    simp [parse_extraction_schema, h]
  · intro v h hobj harr
    simp only [parse_extraction_schema]
    rw [h]
    cases v with
    | jobj kvs => exact absurd rfl (hobj kvs)
    | jarr xs => exact absurd rfl (harr xs)
    | jnull => rfl
    | jbool b => rfl
    | jnum n => rfl
    | jfloat neg iD fD e => rfl
    | jinf neg => rfl
    | jnan => rfl
    | jstr str => rfl

/-- Witness for C7 on the concrete object schema. -/
theorem C7_schema_parsing_dispatch_witness :
    jsonLoads "\x7b\"Name\":\"\",\"City\":\"\"\x7d".toList =
      some (.jobj [("Name".toList, .jstr []), ("City".toList, .jstr [])]) ∧
    parse_extraction_schema "\x7b\"Name\":\"\",\"City\":\"\"\x7d".toList =
      ([("Name".toList, JValue.jstr []), ("City".toList, JValue.jstr [])]).map
        (fun kv => String.mk kv.1) :=
  ⟨rfl, (C7_schema_parsing_dispatch "\x7b\"Name\":\"\",\"City\":\"\"\x7d".toList).1
    [("Name".toList, .jstr []), ("City".toList, .jstr [])] rfl⟩

/-! ## Lemmas about embedding normalization -/

lemma sumSq_nonneg (v : List ℝ) : 0 ≤ (v.map fun x => x * x).sum := by
  induction v with
  | nil => simp
  | cons a t ih =>
    simp only [List.map_cons, List.sum_cons]
    exact add_nonneg (mul_self_nonneg a) ih

lemma sumSq_eq_zero_iff (v : List ℝ) :
    (v.map fun x => x * x).sum = 0 ↔ ∀ x ∈ v, x = 0 := by
  induction v with
  | nil => simp
  | cons a t ih =>
    simp only [List.map_cons, List.sum_cons, List.mem_cons]
    constructor
    · intro h
      have h1 : 0 ≤ a * a := mul_self_nonneg a
      have h2 := sumSq_nonneg t
      have ha : a * a = 0 := by linarith
      have ht : (t.map fun x => x * x).sum = 0 := by linarith
      exact fun x hx => hx.elim (fun e => e ▸ mul_self_eq_zero.mp ha) (ih.mp ht x)
    · intro h
      have ha : a = 0 := h a (Or.inl rfl)
      have ht : ∀ x ∈ t, x = 0 := fun x hx => h x (Or.inr hx)
      simp [ha, ih.mpr ht]

lemma l2norm_eq_zero_iff (v : List ℝ) : l2norm v = 0 ↔ ∀ x ∈ v, x = 0 := by
  rw [l2norm, Real.sqrt_eq_zero (sumSq_nonneg v)]
  exact sumSq_eq_zero_iff v

lemma sumSq_div (v : List ℝ) (n : ℝ) :
    ((v.map fun x => x / n).map fun x => x * x).sum =
      (v.map fun x => x * x).sum / (n * n) := by
  induction v with
  | nil => simp
  | cons a t ih =>
    simp only [List.map_cons, List.sum_cons, ih]
    rw [div_mul_div_comm, div_add_div_same]

lemma l2norm_normalized (v : List ℝ) (h : l2norm v ≠ 0) :
    l2norm (v.map fun x => x / l2norm v) = 1 := by
  have hS : (v.map fun x => x * x).sum = l2norm v * l2norm v :=
    (Real.mul_self_sqrt (sumSq_nonneg v)).symm
  rw [l2norm, sumSq_div, hS, div_self (mul_ne_zero h h), Real.sqrt_one]

/-- **C8**: `normalize_embeddings` works rowwise; the effective divisor
`np.where(norms == 0, 1, norms)` is never zero (no division by zero); a row
with zero L2 norm — equivalently, the zero vector — passes through unchanged;
and a row with non-zero norm is divided by its norm, producing a unit-norm
vector. -/
theorem C8_normalize_embeddings (vs : List (List ℝ)) (v : List ℝ)
    (hv : v ∈ vs) :
    normalize_embeddings vs = vs.map normalizeRow ∧
    (if l2norm v = 0 then (1 : ℝ) else l2norm v) ≠ 0 ∧
    (l2norm v = 0 → normalizeRow v = v) ∧
    (l2norm v ≠ 0 →
      normalizeRow v = v.map (fun x => x / l2norm v) ∧
      l2norm (normalizeRow v) = 1) ∧
    (l2norm v = 0 ↔ ∀ x ∈ v, x = 0) := by
  refine ⟨rfl, ?_, ?_, ?_, l2norm_eq_zero_iff v⟩
  · by_cases h : l2norm v = 0 <;> simp [h]
  · intro h
    simp [normalizeRow, h]
  · intro h
    have he : normalizeRow v = v.map (fun x => x / l2norm v) := by
      simp [normalizeRow, h]
    exact ⟨he, by rw [he]; exact l2norm_normalized v h⟩

/-- Witness for C8: a unit row, and a zero row passing through unchanged. -/
theorem C8_normalize_embeddings_witness :
    [(1 : ℝ), 0] ∈ [[(1 : ℝ), 0], [0]] ∧
    l2norm [(1 : ℝ), 0] ≠ 0 ∧
    l2norm (normalizeRow [(1 : ℝ), 0]) = 1 ∧
    l2norm [(0 : ℝ)] = 0 ∧
    normalizeRow [(0 : ℝ)] = [0] := by
  have h1 : l2norm [(1 : ℝ), 0] = 1 := by
    simp [l2norm]
  have h0 : l2norm [(0 : ℝ)] = 0 := by
    simp [l2norm]
  have hA := C8_normalize_embeddings [[(1 : ℝ), 0], [0]] [(1 : ℝ), 0] (by simp)
  have hB := C8_normalize_embeddings [[(1 : ℝ), 0], [0]] [(0 : ℝ)] (by simp)
  refine ⟨by simp, ?_, ?_, h0, hB.2.2.1 h0⟩
  · rw [h1]
    exact one_ne_zero
  · exact (hA.2.2.2.1 (by rw [h1]; exact one_ne_zero)).2
